import Mathlib

/-!
Verification of the HTML-selection-to-Markdown converter
(`src/background.js`): the recursive `domToMarkdown` transducer, the
`toAbsoluteUrl` resolver, and the final whitespace normalisation
`markdown.replace(/\n{3,}/g, "\n\n").trim()` from
`getMarkdownFromSelection`.

Strings are modelled as Lean `String` (lists of characters); the
JavaScript string operations used by the source (`trim`, `replace` of the
fixed regex `\n{3,}`, `startsWith`, template concatenation) are embedded
as executable functions on `List Char` below.
-/

/-- Whitespace in the sense of JavaScript `String.prototype.trim`
(the WhiteSpace and LineTerminator code points). -/
def isJsWhitespace (c : Char) : Bool :=
  c == '\t' || c == '\n' || c.val == 0x0B || c.val == 0x0C || c == '\r' || c == ' '
  || c.val == 0xA0 || c.val == 0x1680 || (0x2000 ≤ c.val && c.val ≤ 0x200A)
  || c.val == 0x2028 || c.val == 0x2029 || c.val == 0x202F || c.val == 0x205F
  || c.val == 0x3000 || c.val == 0xFEFF

/-- Drops leading JavaScript whitespace. -/
def trimStart (l : List Char) : List Char := l.dropWhile isJsWhitespace

/-- Drops trailing JavaScript whitespace. -/
def trimEnd (l : List Char) : List Char :=
  (l.reverse.dropWhile isJsWhitespace).reverse

/-- JavaScript `s.trim()` on the underlying character list. -/
def jsTrim (l : List Char) : List Char := trimEnd (trimStart l)

/-- JavaScript `s.trim()` on strings; used by the `b`/`strong`/`i`/`em`
branches of `domToMarkdown` (`content.trim()` truthiness test). -/
def jsTrimS (s : String) : String := ⟨jsTrim s.data⟩

/-- Emits a pending run of `k` newlines the way the regex replacement
`\n{3,} → \n\n` leaves it: runs of at most two survive unchanged, longer
runs become exactly two newlines. -/
def emitNl (k : Nat) : List Char := List.replicate (min k 2) '\n'

/-- Scans the character list, collecting the current run of consecutive
newlines in `k` and flushing it via `emitNl` at each non-newline
character and at the end; implements `replace(/\n{3,}/g, "\n\n")`. -/
def collapseAux : Nat → List Char → List Char
  | k, [] => emitNl k
  | k, c :: cs =>
    if c = '\n' then collapseAux (k + 1) cs
    else emitNl k ++ c :: collapseAux 0 cs

/-- JavaScript `s.replace(/\n{3,}/g, "\n\n")` on the character list. -/
def collapseNewlines (l : List Char) : List Char := collapseAux 0 l

/-- Post-processing step from `getMarkdownFromSelection`:
`markdown.replace(/\n{3,}/g, "\n\n").trim()`. -/
def finalize (s : String) : String := ⟨jsTrim (collapseNewlines s.data)⟩

/-- Decides whether the list contains three consecutive newline
characters (equivalently, a run of three or more newlines). -/
def hasTriple : List Char → Bool
  | c1 :: c2 :: c3 :: rest =>
    (c1 == '\n' && c2 == '\n' && c3 == '\n') || hasTriple (c2 :: c3 :: rest)
  | _ => false

/-- Decides that the first character, if any, is not whitespace. -/
def noLeadingWS (l : List Char) : Bool :=
  match l.head? with
  | none => true
  | some c => !isJsWhitespace c

/-- Decides that the last character, if any, is not whitespace. -/
def noTrailingWS (l : List Char) : Bool :=
  match l.getLast? with
  | none => true
  | some c => !isJsWhitespace c

example : finalize "  a\n\n\n\nb\n" = "a\n\nb" := by decide
example : jsTrimS " x " = "x" := by decide

/-!
URL resolution. The source calls the platform API
`new URL(urlStr, document.baseURI).href` inside `toAbsoluteUrl`; only the
call sites are in the repository, so the parser/resolver itself is
modelled from the spec.
-/

/-- Characters allowed in a URL scheme after the first letter. -/
def isSchemeChar (c : Char) : Bool :=
  c.isAlphanum || c == '+' || c == '-' || c == '.'

/-- Scans for the `scheme:` head of an absolute URL; returns the scheme
(with the colon) and the remaining characters. -/
def schemeSplitAux (acc : List Char) : List Char → Option (List Char × List Char)
  | [] => none
  | c :: rest =>
    if c = ':' then some (acc.reverse ++ [c], rest)
    else if isSchemeChar c then schemeSplitAux (c :: acc) rest
    else none

/-- Splits `l` into `scheme:` and the rest when `l` begins with a URL
scheme (a letter followed by scheme characters and a colon). -/
def schemeSplit : List Char → Option (List Char × List Char)
  | [] => none
  | c :: rest => if c.isAlpha then schemeSplitAux [c] rest else none

/-- Holds a URL split into `scheme:`, `//authority`, path, `?query` and
`#fragment` pieces (each possibly empty, concatenating back to the URL). -/
structure ParsedUrl where
  scheme : String
  authority : String
  path : String
  query : String
  fragment : String

/-- Is true away from the characters that end the authority part. -/
def notAuthorityEnd (c : Char) : Bool := !(c == '/' || c == '?' || c == '#')

/-- Is true away from the characters that end the path part. -/
def notPathEnd (c : Char) : Bool := !(c == '?' || c == '#')

/-- Is true away from `#`. -/
def notFragmentStart (c : Char) : Bool := !(c == '#')

/-- Modelled from the spec: the platform URL parser behind
`new URL(urlStr, document.baseURI)` (§4.2), which is not part of the
repository source. Splits an absolute URL into scheme, authority, path,
query and fragment; yields `none` for a string with no scheme. -/
def parseUrl (s : String) : Option ParsedUrl :=
  match schemeSplit s.data with
  | none => none
  | some (sch, rest) =>
    let (auth, rest2) :=
      match rest with
      | '/' :: '/' :: r =>
        ('/' :: '/' :: r.takeWhile notAuthorityEnd, r.dropWhile notAuthorityEnd)
      | _ => ([], rest)
    let path := rest2.takeWhile notPathEnd
    let rest3 := rest2.dropWhile notPathEnd
    let query := rest3.takeWhile notFragmentStart
    let frag := rest3.dropWhile notFragmentStart
    some ⟨⟨sch⟩, ⟨auth⟩, ⟨path⟩, ⟨query⟩, ⟨frag⟩⟩

/-- Keeps a path up to and including its final `/` (the directory of the
base path, against which a relative reference is resolved). -/
def dirname (p : List Char) : List Char :=
  (p.reverse.dropWhile (fun c => !(c == '/'))).reverse

/-- Modelled from the spec: WHATWG-style resolution of `urlStr` against
`base` as performed by the platform's `new URL(urlStr, base)` (§4.2),
which is not part of the repository source. An absolute `urlStr` (one
carrying a scheme) resolves to itself; protocol-relative, root-relative,
fragment-only, query-only and path-relative references are resolved
against the parsed base; resolution fails (`none`) when `urlStr` is
relative and `base` has no scheme. Dot-segment normalisation and
percent-encoding are not modelled. -/
def resolveURL (urlStr base : String) : Option String :=
  if (schemeSplit urlStr.data).isSome then some urlStr
  else
    match parseUrl base with
    | none => none
    | some b =>
      match urlStr.data with
      | '/' :: '/' :: _ => some (b.scheme ++ urlStr)
      | '/' :: _ => some (b.scheme ++ b.authority ++ urlStr)
      | '#' :: _ => some (b.scheme ++ b.authority ++ b.path ++ b.query ++ urlStr)
      | '?' :: _ => some (b.scheme ++ b.authority ++ b.path ++ urlStr)
      | [] => some (b.scheme ++ b.authority ++ b.path ++ b.query)
      | _ :: _ => some (b.scheme ++ b.authority ++ ⟨dirname b.path.data⟩ ++ urlStr)

/-- Embeds `toAbsoluteUrl` from `getMarkdownFromSelection`: an absent or
empty `urlStr` gives `""`; otherwise the resolved URL, or `urlStr` itself
unchanged when resolution fails (the `catch` branch). -/
def toAbsoluteUrl (base : String) (urlStr : Option String) : String :=
  match urlStr with
  | none => ""
  | some s =>
    if s = "" then ""
    else
      match resolveURL s base with
      | some abs => abs
      | none => s

example : toAbsoluteUrl "https://example.com/dir/page.html" (some "pic.png")
    = "https://example.com/dir/pic.png" := by decide
example : toAbsoluteUrl "https://example.com/dir/page.html" (some "/x")
    = "https://example.com/x" := by decide
example : toAbsoluteUrl "https://example.com/dir/page.html" (some "javascript:alert(1)")
    = "javascript:alert(1)" := by decide
example : toAbsoluteUrl "" (some "x") = "x" := by decide

/-!
DOM model and the `domToMarkdown` converter.
-/

/-- Node of the cloned DOM selection: a text node carrying its
`textContent`, or an element with its tag name, attributes and ordered
children (other node kinds contribute `""` and are not modelled). -/
inductive Node where
  | text (content : String)
  | element (tagName : String) (attrs : List (String × String)) (children : List Node)

/-- Embeds `node.getAttribute(name)`: the attribute's value, or `none`
(JavaScript `null`) when the attribute is absent. -/
def getAttribute (attrs : List (String × String)) (name : String) : Option String :=
  (attrs.find? (fun p => p.1 == name)).map (fun p => p.2)

/-- Lowercases a string character by character, as
`node.tagName.toLowerCase()` does for ASCII tag names. -/
def toLowerStr (s : String) : String := ⟨s.data.map Char.toLower⟩

/-- Tests `pat.startsWith(pre)` on the underlying character lists. -/
def listStartsWith : List Char → List Char → Bool
  | [], _ => true
  | _ :: _, [] => false
  | p :: ps, c :: cs => p == c && listStartsWith ps cs

/-- Embeds JavaScript `s.startsWith(pat)`. -/
def strStartsWith (s pat : String) : Bool := listStartsWith pat.data s.data

/-- Embeds the `switch (tagName)` of `domToMarkdown`: given the base URL,
the lowercased tag name, the element's attributes and the concatenated
already-converted children `content`, produces the element's Markdown
fragment. -/
def applyTag (base tagName : String) (attrs : List (String × String))
    (content : String) : String :=
  if tagName = "b" ∨ tagName = "strong" then
    (if jsTrimS content = "" then "" else " **" ++ content ++ "** ")
  else if tagName = "i" ∨ tagName = "em" then
    (if jsTrimS content = "" then "" else " *" ++ content ++ "* ")
  else if tagName = "u" then " <u>" ++ content ++ "</u> "
  else if tagName = "h1" then "\n# " ++ content ++ "\n"
  else if tagName = "h2" then "\n## " ++ content ++ "\n"
  else if tagName = "h3" then "\n### " ++ content ++ "\n"
  else if tagName = "h4" then "\n#### " ++ content ++ "\n"
  else if tagName = "a" then
    (let fullHref := toAbsoluteUrl base (getAttribute attrs "href")
     if fullHref = "" || strStartsWith fullHref "javascript:" then content
     else "[" ++ content ++ "](" ++ fullHref ++ ")")
  else if tagName = "code" then " `" ++ content ++ "` "
  else if tagName = "pre" then "\n```\n" ++ content ++ "\n```\n"
  else if tagName = "li" then "\n- " ++ content
  else if tagName = "p" ∨ tagName = "div" ∨ tagName = "section" ∨ tagName = "article" then
    "\n" ++ content ++ "\n"
  else if tagName = "br" then "\n"
  else if tagName = "img" then
    (let fullSrc := toAbsoluteUrl base (getAttribute attrs "src")
     let alt :=
       match getAttribute attrs "alt" with
       | none => "image"
       | some a => if a = "" then "image" else a
     if fullSrc = "" then ""
     else "\n![" ++ alt ++ "](" ++ fullSrc ++ ")\n")
  else content

mutual

/-- Embeds `domToMarkdown(node)` from the source, with the ambient
`document.baseURI` made an explicit `base` parameter: a text node yields
its content verbatim; an element converts its children in order,
concatenates them, and wraps the result according to its tag. -/
def domToMarkdown (base : String) : Node → String
  | .text content => content
  | .element tag attrs children =>
    applyTag base (toLowerStr tag) attrs (convertChildren base children)

/-- Concatenates the conversions of a list of children in document order
(the `for (let child of node.childNodes) content += domToMarkdown(child)`
loop). -/
def convertChildren (base : String) : List Node → String
  | [] => ""
  | c :: cs => domToMarkdown base c ++ convertChildren base cs

end

example : domToMarkdown "" (.element "b" [] [.text "x"]) = " **x** " := by decide
example : domToMarkdown "" (.element "P" [] [.text "hi"]) = "\nhi\n" := by decide
example :
    finalize (domToMarkdown "" (.element "p" []
      [.text "Hello ", .element "b" [] [.text "World"]]))
    = "Hello  **World**" := by decide
example : domToMarkdown "" (.element "a" [("href", "javascript:alert(1)")]
      [.text "click"]) = "click" := by decide

/-!
Properties of the post-processing pipeline.
-/

theorem hasTriple_tail (c : Char) (l : List Char) (h : hasTriple (c :: l) = false) :
    hasTriple l = false := by
  match l with
  | [] => rfl
  | [_] => rfl
  | c2 :: c3 :: r =>
    simp only [hasTriple, Bool.or_eq_false_iff] at h
    exact h.2

theorem hasTriple_cons_of (c : Char) (l : List Char) (hc : (c == '\n') = false)
    (h : hasTriple l = false) : hasTriple (c :: l) = false := by
  match l with
  | [] => rfl
  | [_] => rfl
  | c2 :: c3 :: r =>
    simp only [hasTriple, Bool.or_eq_false_iff, Bool.and_eq_false_iff]
    exact ⟨Or.inl (Or.inl hc), h⟩

theorem hasTriple_append_right (a b : List Char) (h : hasTriple (a ++ b) = false) :
    hasTriple b = false := by
  induction a with
  | nil => exact h
  | cons hd tl ih => exact ih (hasTriple_tail hd (tl ++ b) h)

theorem hasTriple_append_left (a b : List Char) (h : hasTriple (a ++ b) = false) :
    hasTriple a = false := by
  induction a with
  | nil => rfl
  | cons hd tl ih =>
    have htl : hasTriple tl = false := ih (hasTriple_tail hd (tl ++ b) h)
    cases tl with
    | nil => rfl
    | cons c2 t2 =>
      cases t2 with
      | nil => rfl
      | cons c3 r =>
        simp only [List.cons_append, hasTriple, Bool.or_eq_false_iff] at h
        simp only [hasTriple, Bool.or_eq_false_iff]
        exact ⟨h.1, htl⟩

theorem hasTriple_short (l : List Char) (h : l.length ≤ 2) : hasTriple l = false := by
  match l with
  | [] => rfl
  | [_] => rfl
  | [_, _] => rfl
  | _ :: _ :: _ :: _ => simp at h

theorem emitNl_hasTriple (k : Nat) : hasTriple (emitNl k) = false :=
  hasTriple_short _ (by simp [emitNl])

theorem hasTriple_nl_cons (c : Char) (t : List Char) (hc : (c == '\n') = false)
    (h : hasTriple (c :: t) = false) : hasTriple ('\n' :: c :: t) = false := by
  match t with
  | [] => simp [hasTriple, hc]
  | c3 :: r =>
    simp only [hasTriple, Bool.or_eq_false_iff, Bool.and_eq_false_iff] at h ⊢
    exact ⟨Or.inl (Or.inr hc), h⟩

theorem hasTriple_emit_cons (k : Nat) (c : Char) (t : List Char)
    (hc : (c == '\n') = false) (ht : hasTriple t = false) :
    hasTriple (emitNl k ++ c :: t) = false := by
  have h1 : hasTriple (c :: t) = false := hasTriple_cons_of c t hc ht
  match k with
  | 0 => simpa [emitNl] using h1
  | 1 =>
    have he : emitNl 1 = ['\n'] := rfl
    rw [he]
    exact hasTriple_nl_cons c t hc h1
  | n + 2 =>
    have hm : min (n + 2) 2 = 2 := by omega
    have he : emitNl (n + 2) = ['\n', '\n'] := by
      simp [emitNl, hm]
    rw [he]
    have h2 := hasTriple_nl_cons c t hc h1
    simp only [List.cons_append, List.nil_append, hasTriple, Bool.or_eq_false_iff,
      Bool.and_eq_false_iff]
    exact ⟨Or.inr hc, by
      simpa only [hasTriple, Bool.or_eq_false_iff, Bool.and_eq_false_iff] using h2⟩

theorem collapseAux_hasTriple (l : List Char) : ∀ k, hasTriple (collapseAux k l) = false := by
  induction l with
  | nil => intro k; simpa [collapseAux] using emitNl_hasTriple k
  | cons c cs ih =>
    intro k
    by_cases hc : c = '\n'
    · simp only [collapseAux, if_pos hc]
      exact ih (k + 1)
    · simp only [collapseAux, if_neg hc]
      exact hasTriple_emit_cons k c (collapseAux 0 cs) (by simp [hc]) (ih 0)

theorem hasTriple_replicate_add (m : Nat) (l : List Char) :
    hasTriple (List.replicate (m + 3) '\n' ++ l) = true := by
  rw [show m + 3 = (m + 2) + 1 from rfl, List.replicate_succ,
    show m + 2 = (m + 1) + 1 from rfl, List.replicate_succ, List.replicate_succ]
  simp [hasTriple]

theorem collapseAux_eq_self (l : List Char) : ∀ k,
    hasTriple (List.replicate k '\n' ++ l) = false →
    collapseAux k l = List.replicate k '\n' ++ l := by
  induction l with
  | nil =>
    intro k h
    rw [List.append_nil] at h
    match k with
    | 0 => rfl
    | 1 => rfl
    | 2 => rfl
    | n + 3 =>
      exfalso
      have := hasTriple_replicate_add n ([] : List Char)
      rw [List.append_nil] at this
      rw [this] at h
      simp at h
  | cons c cs ih =>
    intro k h
    by_cases hc : c = '\n'
    · subst hc
      simp only [collapseAux, if_pos rfl]
      have hrepl : List.replicate k '\n' ++ '\n' :: cs
          = List.replicate (k + 1) '\n' ++ cs := by
        rw [List.replicate_succ' k '\n', List.append_assoc]
        rfl
      rw [hrepl] at h ⊢
      exact ih (k + 1) h
    · simp only [collapseAux, if_neg hc]
      have hcs : hasTriple cs = false := by
        have hassoc : List.replicate k '\n' ++ c :: cs
            = (List.replicate k '\n' ++ [c]) ++ cs := by simp
        rw [hassoc] at h
        exact hasTriple_append_right _ _ h
      have hcs0 : collapseAux 0 cs = cs := by
        simpa using ih 0 (by simpa using hcs)
      rw [hcs0]
      have hmin : min k 2 = k := by
        rcases Nat.lt_or_ge k 3 with hk | hk
        · omega
        · exfalso
          obtain ⟨m, rfl⟩ : ∃ m, k = m + 3 := ⟨k - 3, by omega⟩
          rw [hasTriple_replicate_add m (c :: cs)] at h
          simp at h
      simp [emitNl, hmin]

theorem collapseNewlines_eq_self (l : List Char) (h : hasTriple l = false) :
    collapseNewlines l = l := by
  simpa [collapseNewlines] using collapseAux_eq_self l 0 (by simpa using h)

theorem collapseNewlines_hasTriple (l : List Char) :
    hasTriple (collapseNewlines l) = false :=
  collapseAux_hasTriple l 0

theorem dropWhile_self {α : Type} (p : α → Bool) (l : List α) :
    List.dropWhile p (List.dropWhile p l) = List.dropWhile p l := by
  cases hd : List.dropWhile p l with
  | nil => simp
  | cons a t =>
    have hpa : p a = false := by
      have := List.head?_dropWhile_not p l
      rw [hd] at this
      simpa using this
    simp [List.dropWhile_cons, hpa]

theorem dropWhile_cons_self {α : Type} (p : α → Bool) (a : α) (X : List α)
    (h : List.dropWhile p (a :: X) = a :: X) : p a = false := by
  by_cases hp : p a = true
  · exfalso
    rw [List.dropWhile_cons_of_pos hp] at h
    have hlen : (List.dropWhile p X).length ≤ X.length :=
      (List.dropWhile_sublist p).length_le
    rw [h] at hlen
    simp at hlen
  · simpa using hp

theorem trimStart_idem (l : List Char) : trimStart (trimStart l) = trimStart l :=
  dropWhile_self _ _

theorem trimEnd_idem (l : List Char) : trimEnd (trimEnd l) = trimEnd l := by
  simp [trimEnd, dropWhile_self]

theorem trimEnd_append (l : List Char) :
    trimEnd l ++ (l.reverse.takeWhile isJsWhitespace).reverse = l := by
  show (l.reverse.dropWhile isJsWhitespace).reverse
      ++ (l.reverse.takeWhile isJsWhitespace).reverse = l
  rw [← List.reverse_append, List.takeWhile_append_dropWhile, List.reverse_reverse]

theorem trimStart_trimEnd (l : List Char) (hl : trimStart l = l) :
    trimStart (trimEnd l) = trimEnd l := by
  cases he : trimEnd l with
  | nil => rfl
  | cons a t =>
    have hal : l = a :: (t ++ (l.reverse.takeWhile isJsWhitespace).reverse) := by
      have := trimEnd_append l
      rw [he] at this
      simpa using this.symm
    have hpa : isJsWhitespace a = false := by
      rw [hal] at hl
      exact dropWhile_cons_self _ _ _ hl
    simp [trimStart, List.dropWhile_cons, hpa]

theorem jsTrim_idem (l : List Char) : jsTrim (jsTrim l) = jsTrim l := by
  unfold jsTrim
  rw [trimStart_trimEnd (trimStart l) (trimStart_idem l), trimEnd_idem]

theorem hasTriple_trimStart (l : List Char) (h : hasTriple l = false) :
    hasTriple (trimStart l) = false := by
  have hsplit : l.takeWhile isJsWhitespace ++ trimStart l = l := by
    show l.takeWhile isJsWhitespace ++ l.dropWhile isJsWhitespace = l
    exact List.takeWhile_append_dropWhile isJsWhitespace l
  rw [← hsplit] at h
  exact hasTriple_append_right _ _ h

theorem hasTriple_trimEnd (l : List Char) (h : hasTriple l = false) :
    hasTriple (trimEnd l) = false := by
  have hsplit := trimEnd_append l
  rw [← hsplit] at h
  exact hasTriple_append_left _ _ h

theorem hasTriple_jsTrim (l : List Char) (h : hasTriple l = false) :
    hasTriple (jsTrim l) = false :=
  hasTriple_trimEnd _ (hasTriple_trimStart _ h)

theorem noLeadingWS_jsTrim (l : List Char) : noLeadingWS (jsTrim l) = true := by
  unfold noLeadingWS jsTrim
  cases he : (trimEnd (trimStart l)).head? with
  | none => rfl
  | some c =>
    have hyc : (trimStart l).head? = some c := by
      have hsplit := trimEnd_append (trimStart l)
      have := congrArg List.head? hsplit
      rw [List.head?_append, he] at this
      simpa using this.symm
    have hpc : isJsWhitespace c = false := by
      have := List.head?_dropWhile_not isJsWhitespace l
      rw [show List.dropWhile isJsWhitespace l = trimStart l from rfl, hyc] at this
      simpa using this
    simp [hpc]

theorem noTrailingWS_jsTrim (l : List Char) : noTrailingWS (jsTrim l) = true := by
  unfold noTrailingWS jsTrim trimEnd
  cases he : ((List.dropWhile isJsWhitespace (trimStart l).reverse).reverse).getLast? with
  | none => rfl
  | some c =>
    have hc : (List.dropWhile isJsWhitespace (trimStart l).reverse).head? = some c := by
      rw [List.getLast?_eq_head?_reverse, List.reverse_reverse] at he
      exact he
    have hpc : isJsWhitespace c = false := by
      have := List.head?_dropWhile_not isJsWhitespace (trimStart l).reverse
      rw [hc] at this
      simpa using this
    simp [hpc]

/-!
Attribute noninterference.
-/

mutual

/-- Decides that two nodes are identical except possibly in the
attributes of elements whose lowercased tag is neither `"a"` nor
`"img"`. -/
def attrEquiv : Node → Node → Bool
  | .text c1, .text c2 => decide (c1 = c2)
  | .element t1 a1 ch1, .element t2 a2 ch2 =>
    decide (t1 = t2)
      && (if toLowerStr t1 = "a" ∨ toLowerStr t1 = "img" then decide (a1 = a2) else true)
      && attrEquivList ch1 ch2
  | _, _ => false

/-- Extends `attrEquiv` elementwise to child lists of equal length. -/
def attrEquivList : List Node → List Node → Bool
  | [], [] => true
  | c :: cs, d :: ds => attrEquiv c d && attrEquivList cs ds
  | _, _ => false

end

theorem applyTag_attrs_eq (base t : String) (a1 a2 : List (String × String))
    (content : String) (h : t = "a" ∨ t = "img" → a1 = a2) :
    applyTag base t a1 content = applyTag base t a2 content := by
  by_cases h1 : t = "a"
  · rw [h (Or.inl h1)]
  · by_cases h2 : t = "img"
    · rw [h (Or.inr h2)]
    · simp only [applyTag, if_neg h1, if_neg h2]

mutual

theorem attrEquiv_convert (base : String) :
    ∀ n1 n2, attrEquiv n1 n2 = true → domToMarkdown base n1 = domToMarkdown base n2
  | .text c1, .text c2, h => by
    have hc : c1 = c2 := by simpa [attrEquiv] using h
    rw [hc]
  | .element t1 a1 ch1, .element t2 a2 ch2, h => by
    simp only [attrEquiv, Bool.and_eq_true, decide_eq_true_eq] at h
    obtain ⟨⟨ht, hif⟩, hch⟩ := h
    subst ht
    have hc := attrEquivList_convert base ch1 ch2 hch
    show applyTag base (toLowerStr t1) a1 (convertChildren base ch1)
        = applyTag base (toLowerStr t1) a2 (convertChildren base ch2)
    rw [hc]
    apply applyTag_attrs_eq
    intro hai
    rw [if_pos hai] at hif
    exact of_decide_eq_true hif
  | .text _, .element _ _ _, h => by simp [attrEquiv] at h
  | .element _ _ _, .text _, h => by simp [attrEquiv] at h

theorem attrEquivList_convert (base : String) :
    ∀ l1 l2, attrEquivList l1 l2 = true → convertChildren base l1 = convertChildren base l2
  | [], [], _ => rfl
  | c :: cs, d :: ds, h => by
    have hp : attrEquiv c d = true ∧ attrEquivList cs ds = true := by
      simpa [attrEquivList, Bool.and_eq_true] using h
    show domToMarkdown base c ++ convertChildren base cs
        = domToMarkdown base d ++ convertChildren base ds
    rw [attrEquiv_convert base c d hp.1, attrEquivList_convert base cs ds hp.2]
  | [], _ :: _, h => by simp [attrEquivList] at h
  | _ :: _, [], h => by simp [attrEquivList] at h

end

/-!
Claim theorems.
-/

/-- C1 (counterexample): converting `<p>Hello <b>World</b></p>` and
finalizing does not yield `"Hello **World**"`: the text node ends in a
space and the `b` rule adds its own surrounding spaces, so the code
produces a double space (`"Hello  **World**"`). Shown at the concrete
base URL `"https://example.com/"`, refuting the claim's universal
statement. -/
theorem c1_counterexample :
    finalize (domToMarkdown "https://example.com/"
      (.element "p" [] [.text "Hello ", .element "b" [] [.text "World"]]))
      ≠ "Hello **World**" := by decide

/-- C1 (amended): for every base URL, converting the element tree
`<p>Hello <b>World</b></p>` and applying finalize yields exactly
`"Hello  **World**"`, with two spaces between the words (the trailing
space of the text node plus the leading pad of the `b` rule). -/
theorem c1_amended_round_trip (base : String) :
    finalize (domToMarkdown base
      (.element "p" [] [.text "Hello ", .element "b" [] [.text "World"]]))
      = "Hello  **World**" := rfl

/-- C2: `finalize` is idempotent — for every string `x`,
`finalize (finalize x) = finalize x`. -/
theorem c2_finalize_idempotent (x : String) : finalize (finalize x) = finalize x := by
  show String.mk (jsTrim (collapseNewlines (jsTrim (collapseNewlines x.data))))
      = String.mk (jsTrim (collapseNewlines x.data))
  have h1 : hasTriple (jsTrim (collapseNewlines x.data)) = false :=
    hasTriple_jsTrim _ (collapseNewlines_hasTriple _)
  rw [collapseNewlines_eq_self _ h1, jsTrim_idem]

/-- C3: for every input string, the output of `finalize` contains no run
of three or more consecutive newline characters and has neither leading
nor trailing whitespace. -/
theorem c3_finalize_normalized (s : String) :
    hasTriple (finalize s).data = false
    ∧ noLeadingWS (finalize s).data = true
    ∧ noTrailingWS (finalize s).data = true := by
  refine ⟨?_, ?_, ?_⟩
  · exact hasTriple_jsTrim _ (collapseNewlines_hasTriple _)
  · exact noLeadingWS_jsTrim _
  · exact noTrailingWS_jsTrim _

/-- C4: an `a` element resolves its `href` attribute against the base URL
to `fullHref`; when `fullHref` is empty or starts with `"javascript:"`
the converted children are returned unchanged, otherwise
`"[content](fullHref)"`; in particular
`<a href="javascript:alert(1)">click</a>` converts to `"click"` for every
base URL. -/
theorem c4_anchor_rule (base : String) (attrs : List (String × String))
    (children : List Node) :
    (domToMarkdown base (.element "a" attrs children) =
      (if toAbsoluteUrl base (getAttribute attrs "href") = ""
          || strStartsWith (toAbsoluteUrl base (getAttribute attrs "href")) "javascript:"
       then convertChildren base children
       else "[" ++ convertChildren base children ++ "]("
         ++ toAbsoluteUrl base (getAttribute attrs "href") ++ ")"))
    ∧ domToMarkdown base (.element "a" [("href", "javascript:alert(1)")] [.text "click"])
      = "click" :=
  ⟨rfl, rfl⟩

/-- C5: the URL resolver is total — for every base and every `s`, an
absent or empty `urlStr` yields `""` unconditionally, and whenever
resolution of a non-empty `urlStr` fails, `toAbsoluteUrl` returns
`urlStr` itself unchanged. -/
theorem c5_resolver_total (base s : String) :
    toAbsoluteUrl base none = "" ∧ toAbsoluteUrl base (some "") = ""
    ∧ (s ≠ "" → resolveURL s base = none → toAbsoluteUrl base (some s) = s) := by
  refine ⟨rfl, rfl, ?_⟩
  intro hs hr
  show (if s = "" then ""
    else match resolveURL s base with | some abs => abs | none => s) = s
  rw [if_neg hs, hr]

/-- C5 witness: `"x"` does not resolve against the malformed, schemeless
base `"not a url"`, and `toAbsoluteUrl` passes it through unchanged,
while the absent/empty cases yield `""` at the same base. -/
theorem c5_resolver_total_witness :
    toAbsoluteUrl "not a url" none = "" ∧ toAbsoluteUrl "not a url" (some "") = ""
    ∧ toAbsoluteUrl "not a url" (some "x") = "x" :=
  ⟨(c5_resolver_total "not a url" "x").1, (c5_resolver_total "not a url" "x").2.1,
    (c5_resolver_total "not a url" "x").2.2 (by decide) (by decide)⟩

/-- C6: each heading `h1`..`h4` converts to a newline, as many `#`
characters as the heading level, a space, the converted children, and a
newline; in particular `<h2>Title</h2>` finalizes to `"## Title"` for
every base URL. -/
theorem c6_heading_rule (base : String) (attrs : List (String × String))
    (children : List Node) :
    (domToMarkdown base (.element "h1" attrs children)
      = "\n" ++ String.mk (List.replicate 1 '#') ++ " "
        ++ convertChildren base children ++ "\n")
    ∧ (domToMarkdown base (.element "h2" attrs children)
      = "\n" ++ String.mk (List.replicate 2 '#') ++ " "
        ++ convertChildren base children ++ "\n")
    ∧ (domToMarkdown base (.element "h3" attrs children)
      = "\n" ++ String.mk (List.replicate 3 '#') ++ " "
        ++ convertChildren base children ++ "\n")
    ∧ (domToMarkdown base (.element "h4" attrs children)
      = "\n" ++ String.mk (List.replicate 4 '#') ++ " "
        ++ convertChildren base children ++ "\n")
    ∧ finalize (domToMarkdown base (.element "h2" [] [.text "Title"])) = "## Title" :=
  ⟨rfl, rfl, rfl, rfl, rfl⟩

/-- C7: an `img` element resolves its `src` attribute to `fullSrc`;
if `fullSrc` is empty it converts to `""`, otherwise to
`"\n![alt](fullSrc)\n"` with `alt` defaulting to `"image"` when the
attribute is absent or empty, the children contributing nothing; in
particular `<img src="pic.png">` with base
`https://example.com/dir/page.html` finalizes to
`"![image](https://example.com/dir/pic.png)"`. -/
theorem c7_img_rule (base : String) (attrs : List (String × String))
    (children : List Node) :
    (domToMarkdown base (.element "img" attrs children) =
      (let fullSrc := toAbsoluteUrl base (getAttribute attrs "src")
       let alt :=
         match getAttribute attrs "alt" with
         | none => "image"
         | some a => if a = "" then "image" else a
       if fullSrc = "" then "" else "\n![" ++ alt ++ "](" ++ fullSrc ++ ")\n"))
    ∧ finalize (domToMarkdown "https://example.com/dir/page.html"
        (.element "img" [("src", "pic.png")] []))
      = "![image](https://example.com/dir/pic.png)" :=
  ⟨rfl, rfl⟩

/-- C8: a `b` or `strong` element converts to `" **content** "` (content
untrimmed, wrapped in single spaces) when the trimmed content is
non-empty, and to `""` otherwise; in particular an empty
`<strong></strong>` converts to `""`. -/
theorem c8_strong_rule (base : String) (attrs : List (String × String))
    (children : List Node) :
    (domToMarkdown base (.element "b" attrs children) =
      (if jsTrimS (convertChildren base children) = "" then ""
       else " **" ++ convertChildren base children ++ "** "))
    ∧ (domToMarkdown base (.element "strong" attrs children) =
      (if jsTrimS (convertChildren base children) = "" then ""
       else " **" ++ convertChildren base children ++ "** "))
    ∧ domToMarkdown base (.element "strong" [] []) = "" :=
  ⟨rfl, rfl, rfl⟩

/-- C9: tag synonym equivalence — for every attribute mapping and child
list, `b` converts exactly as `strong` and `i` exactly as `em`. -/
theorem c9_tag_synonyms (base : String) (attrs : List (String × String))
    (children : List Node) :
    domToMarkdown base (.element "b" attrs children)
      = domToMarkdown base (.element "strong" attrs children)
    ∧ domToMarkdown base (.element "i" attrs children)
      = domToMarkdown base (.element "em" attrs children) :=
  ⟨rfl, rfl⟩

/-- C10 (counterexample): two trees that differ only in the attributes of
an element whose tag `"A"` is literally neither `"a"` nor `"img"`
nevertheless convert to different strings, because the converter
lowercases the tag before dispatching and then reads the `href`
attribute. -/
theorem c10_counterexample :
    (("A" : String) ≠ "a" ∧ ("A" : String) ≠ "img")
    ∧ domToMarkdown "" (.element "A" [("href", "http://x/")] [.text "t"])
      ≠ domToMarkdown "" (.element "A" [] [.text "t"]) := by
  refine ⟨⟨by decide, by decide⟩, by decide⟩

/-- C10 (amended): attribute noninterference outside links and images —
two trees related by `attrEquiv` (equal except possibly in the attributes
of elements whose lowercased tag is neither `"a"` nor `"img"`) convert to
the same string for every base URL. -/
theorem c10_attr_noninterference (base : String) (n1 n2 : Node)
    (h : attrEquiv n1 n2 = true) :
    domToMarkdown base n1 = domToMarkdown base n2 :=
  attrEquiv_convert base n1 n2 h

/-- C10 witness: a `div` differing only in its attributes satisfies
`attrEquiv`, and both versions convert identically. -/
theorem c10_attr_noninterference_witness :
    domToMarkdown "" (.element "div" [("id", "x")] [.text "t"])
      = domToMarkdown "" (.element "div" [] [.text "t"]) :=
  c10_attr_noninterference "" _ _ (by decide)
